import Mathlib

/-!
Verification of the Carta cap-table transformer
(`src/carta_to_cap_table.py`) against its natural-language specification.

The development shallowly embeds the two core responsibilities of the
program:

* `parse_carta_export` — header discovery, column classification, row
  filtering, aggregation and price extraction over a raw sheet, and
* `transform_writes` / `transform_summary` — the template populator,
  modelled as the ordered list of cell writes it performs on the
  `Inputs` sheet plus the summary record it returns.

A raw sheet is a row-major list of rows of typed scalar cells, which is
what `pandas.read_excel` hands to the Python code.  Machine floats are
modelled as exact rationals; Python string operations used by the code
(`str.lower`, `in`, `str.strip`, `str.replace`, `' '.join`) are
re-implemented over `List Char` so that every definition evaluates by
kernel reduction.
-/

namespace Carta

/-- A scalar cell as surfaced by `pandas.read_excel`: a numeric value, a
text value, or an empty cell (pandas `NaN`). -/
inductive Cell where
  | num (q : ℚ)
  | str (s : String)
  | blank
deriving DecidableEq, Repr

/-- ASCII lower-casing of one character, as Python's `str.lower` acts on
the ASCII range (the export labels the code matches on are ASCII). -/
def lowerChar (c : Char) : Char :=
  if 65 ≤ c.toNat ∧ c.toNat ≤ 90 then Char.ofNat (c.toNat + 32) else c

/-- Python `str.lower` (ASCII). -/
def lowerString (s : String) : String := String.mk (s.data.map lowerChar)

/-- Python whitespace as stripped by `str.strip`. -/
def isPySpace (c : Char) : Bool :=
  c == ' ' || c == '\t' || c == '\n' || c == '\r' || c.toNat == 11 || c.toNat == 12

/-- Python `str.strip`. -/
def stripString (s : String) : String :=
  String.mk (((s.data.dropWhile isPySpace).reverse.dropWhile isPySpace).reverse)

/-- Python `str()` of a cell value: text is itself, an empty cell (a NaN
float in pandas) prints as `"nan"`, and a number prints as its decimal
text.  We use the `Rat` printer; no claim depends on the exact digits,
only on the fact that the text of a number consists of digits and signs
and so contains no letters. -/
def pyStr : Cell → String
  | .num q => toString q
  | .str s => s
  | .blank => "nan"

/-- `str(v).lower()` for a cell `v`. -/
def pyLower (c : Cell) : String := lowerString (pyStr c)

/-- Auxiliary for the substring test: does `pat` occur inside the list? -/
def substrAux (pat : List Char) : List Char → Bool
  | [] => pat.isEmpty
  | c :: cs => pat.isPrefixOf (c :: cs) || substrAux pat cs

/-- Python's `pat in s` substring test. -/
def strContains (s pat : String) : Bool := substrAux pat.data s.data

/-- Python `' '.join`. -/
def joinWithSpace : List String → String
  | [] => ""
  | [s] => s
  | s :: rest => s ++ " " ++ joinWithSpace rest

/-- `enumerate` with an explicit starting index. -/
def enumFromNat {α : Type} : Nat → List α → List (Nat × α)
  | _, [] => []
  | k, a :: as => (k, a) :: enumFromNat (k + 1) as

/-- A raw sheet, row-major, as read with `header=None`. -/
abbrev Sheet := List (List Cell)

/-- Number of columns of the data frame (pandas pads every row to the
widest row with `NaN`). -/
def ncols (raw : Sheet) : Nat := (raw.map List.length).foldr max 0

/-- The cell at 0-based row `i`, column `j`; missing positions are NaN. -/
def cellAt (raw : Sheet) (i j : Nat) : Cell := (raw.getD i []).getD j .blank

/-- Row `i` padded to the frame width, i.e. `raw.iloc[i].tolist()`. -/
def padRow (raw : Sheet) (i : Nat) : List Cell :=
  (List.range (ncols raw)).map (cellAt raw i)

/-- One step of the header scan: the row's case-folded values contain the
literal `"name"`, or their space-joined concatenation contains
`"stakeholder"`. -/
def headerRowMatch (row : List Cell) : Bool :=
  (row.map pyLower).contains "name" ||
    strContains (joinWithSpace (row.map pyLower)) "stakeholder"

/-- `for i in range(min(10, len(raw))): ... break` — the first row among
the first 10 that matches the header heuristic. -/
def findHeaderRow (raw : Sheet) : Option Nat :=
  (List.range (min 10 raw.length)).find? fun i => headerRowMatch (padRow raw i)

/-- The column label pandas assigns to header cell `c` at position `j`:
text stays itself, a NaN header becomes `"Unnamed: j"`, a numeric header
keeps its numeric text (pandas would keep the float itself; see
`parse_carta_export`, which errors on numeric header cells exactly as the
Python code would crash on `col.lower()`). -/
def baseColName (j : Nat) : Cell → String
  | .blank => "Unnamed: " ++ toString j
  | .num q => toString q
  | .str s => s

/-- pandas de-duplication of repeated column labels: the `k`-th repeat of
`s` becomes `s.k`. -/
def mangleAux (seen : List String) : List String → List String
  | [] => []
  | s :: rest =>
      (if seen.count s = 0 then s else s ++ "." ++ toString (seen.count s)) ::
        mangleAux (s :: seen) rest

/-- Column labels of the frame read with `header=h`. -/
def dfColumns (raw : Sheet) (h : Nat) : List String :=
  mangleAux [] ((enumFromNat 0 (padRow raw h)).map fun jc => baseColName jc.1 jc.2)

/-- Share-class column test: label contains `"class"` or `"series"`, and
also `"units"` (case-folded). -/
def isShareClassLabel (s : String) : Bool :=
  (strContains (lowerString s) "class" || strContains (lowerString s) "series") &&
    strContains (lowerString s) "units"

/-- Options column test: label contains `"option"` or `"rsu"`. -/
def isOptionsLabel (s : String) : Bool :=
  strContains (lowerString s) "option" || strContains (lowerString s) "rsu"

/-- Indices (in left-to-right column order) of the share-class columns.
`list(df.columns).index(name)` recovers exactly the column's own position
because pandas de-duplicates labels. -/
def shareClassIdxs (raw : Sheet) (h : Nat) : List Nat :=
  (List.range (ncols raw)).filter fun j => isShareClassLabel ((dfColumns raw h).getD j "")

/-- Indices of the options/RSU columns. -/
def optionIdxs (raw : Sheet) (h : Nat) : List Nat :=
  (List.range (ncols raw)).filter fun j => isOptionsLabel ((dfColumns raw h).getD j "")

/-- Value of an unsigned digit run. -/
def digitsToNat (ds : List Char) : Nat := ds.foldl (fun a c => a * 10 + (c.toNat - 48)) 0

/-- Numeric coercion of a text cell, modelling `pd.to_numeric(·,
errors='coerce')` on the decimal literals that occur in exports:
an optional sign, an integer part, an optional fractional part
(at least one digit overall).  Anything else coerces to NaN (`none`). -/
def parseDecimal? (s : String) : Option ℚ :=
  let step : List Char → Option ℚ := fun cs =>
    let intPart := cs.takeWhile Char.isDigit
    let rest := cs.dropWhile Char.isDigit
    match rest with
    | [] => if intPart.isEmpty then none else some ((digitsToNat intPart : ℚ))
    | '.' :: fracPart =>
        if fracPart.all Char.isDigit && !(intPart.isEmpty && fracPart.isEmpty) then
          some ((digitsToNat intPart : ℚ) +
            (digitsToNat fracPart : ℚ) / (10 : ℚ) ^ fracPart.length)
        else none
    | _ => none
  match s.data with
  | '-' :: cs => (step cs).map (fun q => -q)
  | '+' :: cs => step cs
  | cs => step cs

/-- `pd.to_numeric(·, errors='coerce')` on one cell: a number is itself,
text is parsed as a decimal literal, NaN/unparsable is `none`. -/
def toNumOpt : Cell → Option ℚ
  | .num q => some q
  | .str s => parseDecimal? s
  | .blank => none

/-- Coercion followed by `.fillna(0)`. -/
def toNum0 (c : Cell) : ℚ := (toNumOpt c).getD 0

/-- First position of a label in the column list (`list.index`). -/
def firstIdxOf? (s : String) : List String → Option Nat
  | [] => none
  | t :: ts => if t = s then some 0 else (firstIdxOf? s ts).map (· + 1)

/-- Number of data rows of the frame read with `header=h`. -/
def dataRowCount (raw : Sheet) (h : Nat) : Nat := raw.length - (h + 1)

/-- `str(row.get('Name', '')).lower()` for the data row with pandas index
`p`: the cell in the column labelled exactly `Name` if one exists (a
missing value prints as `"nan"`), and `''` when there is no such column. -/
def rowName (raw : Sheet) (h p : Nat) : String :=
  match firstIdxOf? "Name" (dfColumns raw h) with
  | some j => lowerString (pyStr (cellAt raw (h + 1 + p) j))
  | none => ""

/-- The footer keywords of the row filter. -/
def summary_patterns : List String :=
  ["total", "outstanding", "available", "fully diluted", "percentage", "price per"]

/-- `is_stakeholder_row`: the case-folded name is non-empty, contains no
footer keyword, and is not the missing-value text `"nan"`. -/
def is_stakeholder_row (name : String) : Bool :=
  (!(name == "")) &&
    (!(summary_patterns.any fun pat => strContains name pat)) &&
    (name != "nan")

/-- One retained stakeholder row.  `carta_row` is the 1-based Excel row of
the row in the raw export (`pandas index + header_row + 2`); `cells` is
the padded raw row, from which per-class holdings are read by column
index. -/
structure StakeholderRecord where
  name : String
  carta_row : Nat
  cells : List Cell
  total_shares : ℚ
  total_options : ℚ
deriving DecidableEq, Repr

instance : Inhabited StakeholderRecord := ⟨⟨"", 0, [], 0, 0⟩⟩

/-- The record built from the data row with pandas index `p`. -/
def mkRecord (raw : Sheet) (h p : Nat) : StakeholderRecord where
  name := rowName raw h p
  carta_row := p + h + 2
  cells := padRow raw (h + 1 + p)
  total_shares := ((shareClassIdxs raw h).map fun j => toNum0 (cellAt raw (h + 1 + p) j)).sum
  total_options := ((optionIdxs raw h).map fun j => toNum0 (cellAt raw (h + 1 + p) j)).sum

/-- Pandas indices of the rows retained by the stakeholder filter, in
original row order. -/
def stakeholderIdxs (raw : Sheet) (h : Nat) : List Nat :=
  (List.range (dataRowCount raw h)).filter fun p => is_stakeholder_row (rowName raw h p)

/-- The ordered stakeholder records of the export. -/
def stakeholdersList (raw : Sheet) (h : Nat) : List StakeholderRecord :=
  (stakeholderIdxs raw h).map (mkRecord raw h)

/-- The first row whose column-1 cell's text contains `"price per unit"`
(`''` stands in when the frame has at most one column). -/
def findPriceRow (raw : Sheet) : Option Nat :=
  (List.range raw.length).find? fun idx =>
    if 1 < ncols raw then strContains (pyLower (cellAt raw idx 1)) "price per unit"
    else false

/-- The per-class unit prices harvested from the price row: a class gets
an entry exactly when its cell coerces to a number strictly greater
than 0. -/
def priceEntries (raw : Sheet) (h : Nat) : List (String × ℚ) :=
  match findPriceRow raw with
  | none => []
  | some idx =>
      (shareClassIdxs raw h).filterMap fun j =>
        if j < ncols raw then
          match toNumOpt (cellAt raw idx j) with
          | some p => if 0 < p then some ((dfColumns raw h).getD j "", p) else none
          | none => none
        else none

/-- Python `str.replace` (all non-overlapping occurrences, left to
right). -/
def replaceAll (pat rep : List Char) : List Char → List Char
  | [] => []
  | c :: cs =>
      if pat ≠ [] ∧ pat.isPrefixOf (c :: cs) then
        rep ++ replaceAll pat rep ((c :: cs).drop pat.length)
      else
        c :: replaceAll pat rep cs
termination_by l => l.length
decreasing_by
  · simp only [List.length_drop, List.length_cons]
    have : 1 ≤ pat.length := by
      cases pat with
      | nil => exact absurd rfl (by tauto)
      | cons x xs => simp
    omega
  · simp

/-- The company name: the title cell with the boilerplate fragment
removed, stripped. -/
def companyName (raw : Sheet) : String :=
  stripString (String.mk
    (replaceAll "Detailed Capitalization Table".data [] (pyStr (cellAt raw 0 0)).data))

/-- The parser's output record (the `cap_table_date` and `validation`
entries of the Python dict are omitted: no claim refers to them and the
date falls back to the wall clock). -/
structure ParsedExport where
  company_name : String
  stakeholders : List StakeholderRecord
  share_class_cols : List String
  share_class_col_indices : List (String × Nat)
  options_cols : List String
  options_col_indices : List (String × Nat)
  header_row : Nat
  price_per_unit : List (String × ℚ)
  price_row_num : Option Nat
deriving DecidableEq, Repr

/-- The successfully parsed export for header row `h`. -/
def parseOk (raw : Sheet) (h : Nat) : ParsedExport where
  company_name := companyName raw
  stakeholders := stakeholdersList raw h
  share_class_cols := (shareClassIdxs raw h).map fun j => (dfColumns raw h).getD j ""
  share_class_col_indices := (shareClassIdxs raw h).map fun j => ((dfColumns raw h).getD j "", j)
  options_cols := (optionIdxs raw h).map fun j => (dfColumns raw h).getD j ""
  options_col_indices := (optionIdxs raw h).map fun j => ((dfColumns raw h).getD j "", j)
  header_row := h
  price_per_unit := priceEntries raw h
  price_row_num := (findPriceRow raw).map (· + 1)

/-- Is the cell numeric? -/
def Cell.isNum : Cell → Bool
  | .num _ => true
  | _ => false

/-- `parse_carta_export`: fails when no header row is found within the
first 10 rows; additionally, a numeric header cell makes the Python code
crash on `col.lower()` (floats have no `.lower`), modelled as an error. -/
def parse_carta_export (raw : Sheet) : Except String ParsedExport :=
  match findHeaderRow raw with
  | none => .error "Could not find header row in Carta export"
  | some h =>
      if (padRow raw h).any Cell.isNum then
        .error "AttributeError: float object has no attribute lower"
      else .ok (parseOk raw h)

/-! ## Template populator (`transform_to_template`)

The populator is modelled by the ordered list of cell writes it performs
on the `Inputs` sheet of the template workbook — each write is a
`(row, column, value)` triple, later writes overriding earlier ones —
together with the summary record it returns.  Values are either literals
or formula strings referencing the auxiliary `Carta Raw` sheet. -/

/-- A value written into a template cell: a literal number, a literal
text, the as-of date (opaque here), a formula string, or `None`
(clearing the cell). -/
inductive TValue where
  | numV (q : ℚ)
  | strV (s : String)
  | dateV
  | formula (s : String)
  | cleared
deriving DecidableEq, Repr

/-- One cell write: row, column, value. -/
abbrev Write := Nat × Nat × TValue

/-- `openpyxl.utils.get_column_letter`: 1-based column number to Excel
letters. -/
def colLetter : Nat → String
  | 0 => ""
  | n + 1 =>
      colLetter (n / 26) ++ String.mk [Char.ofNat (65 + n % 26)]
termination_by n => n
decreasing_by
  exact Nat.lt_succ_of_le (Nat.div_le_self n 26)

/-- First occurrence of `"Units"` (as in the regex `\s*Units.*$`). -/
def unitsIdx? (cs : List Char) : Option Nat :=
  match cs with
  | [] => none
  | _ :: rest =>
      if "Units".data.isPrefixOf cs then some 0
      else (unitsIdx? rest).map (· + 1)

/-- `re.sub(r'\s*Units.*$', '', s)`: cut from the first occurrence of
`Units` (with any immediately preceding whitespace) to the end. -/
def stripUnitsSuffix (s : String) : String :=
  match unitsIdx? s.data with
  | none => s
  | some i => String.mk (((s.data.take i).reverse.dropWhile isPySpace).reverse)

/-- Core of the parenthetical strip `re.sub(r'\s*\([^)]*\)', '', s)`:
remove every complete `( ... )` group (Python also eats the whitespace
just before each group; the possible interior double space this leaves
behind is invisible to every claim, and the final `strip` below removes
it at the ends). -/
def stripParens : List Char → List Char
  | [] => []
  | '(' :: rest =>
      if rest.contains ')' then stripParens ((rest.dropWhile (· ≠ ')')).drop 1)
      else '(' :: stripParens rest
  | c :: rest => c :: stripParens rest
termination_by cs => cs.length
decreasing_by
  · have h1 : (rest.dropWhile (· ≠ ')')).length ≤ rest.length :=
      (List.dropWhile_sublist _).length_le
    have h2 : ((rest.dropWhile (· ≠ ')')).drop 1).length ≤ (rest.dropWhile (· ≠ ')')).length := by
      rw [List.length_drop]; omega
    simp only [List.length_cons]
    omega
  · simp
  · simp

/-- The display label written into a class header cell:
`re.sub(r'\s*Units.*$', '', name).strip()` then
`re.sub(r'\s*\([^)]*\)', '', ·).strip()`. -/
def cleanClassName (s : String) : String :=
  stripString (String.mk (stripParens (stripString (stripUnitsSuffix s)).data))

/-- The ascending key order used for ranking. -/
def bySharesLE (a b : StakeholderRecord) : Prop := a.total_shares ≤ b.total_shares

instance : DecidableRel bySharesLE := fun a b =>
  inferInstanceAs (Decidable (a.total_shares ≤ b.total_shares))

/-- `stakeholders.sort_values('_total_shares', ascending=False)`.
For `ascending=False` pandas `nargsort` reverses the key column *and*
the index array, runs an ascending argsort over the reversed data, and
then reverses the resulting indexer.  Around a stable ascending sort
this double reversal is exactly a stable *descending* sort: equal keys
keep their original relative order.  The ascending argsort is numpy's
default `quicksort`, which on the short arrays at issue (length ≤ 15)
runs its stable insertion sort; we model it by a stable insertion sort
(beyond that length numpy's quicksort makes no stability promise). -/
def sort_values_shares_desc (l : List StakeholderRecord) : List StakeholderRecord :=
  (List.insertionSort bySharesLE l.reverse).reverse

/-- `stakeholders.head(9)` after the sort. -/
def topInvestors (d : ParsedExport) : List StakeholderRecord :=
  (sort_values_shares_desc d.stakeholders).take 9

/-- `stakeholders.iloc[9:] if len(stakeholders) > 9 else pd.DataFrame()`. -/
def otherInvestors (d : ParsedExport) : List StakeholderRecord :=
  if 9 < (sort_values_shares_desc d.stakeholders).length then
    (sort_values_shares_desc d.stakeholders).drop 9
  else []

/-- The (at most 4) share classes actually mapped into the template. -/
def mappedClasses (d : ParsedExport) : List String := d.share_class_cols.take 4

/-- `class_col_mapping`: class label ↦ template column number 6 + i
(columns F, G, H, I), in insertion order. -/
def class_col_mapping (d : ParsedExport) : List (String × Nat) :=
  (enumFromNat 0 (mappedClasses d)).map fun ic => (ic.2, 6 + ic.1)

/-- The raw-sheet column index recorded for a share-class label
(`share_class_col_indices[class_name]`). -/
def classIdx (d : ParsedExport) (n : String) : Nat :=
  ((d.share_class_col_indices.lookup n).getD 0)

/-- `carta_col_mapping[class_name]`: the `Carta Raw` column letter of a
mapped class (the dict the code builds holds exactly
`get_column_letter(share_class_col_indices[class_name] + 1)` for each
mapped label). -/
def classLetter (d : ParsedExport) (n : String) : String :=
  colLetter (classIdx d n + 1)

/-- `options_carta_cols`: column letters of all options columns. -/
def optionsLetters (d : ParsedExport) : List String :=
  d.options_col_indices.map fun nj => colLetter (nj.2 + 1)

/-- A cell reference `'Carta Raw'!<col><row>` (without the `=`). -/
def cellRef (col : String) (row : Nat) : String :=
  "'Carta Raw'!" ++ col ++ toString row

/-- Python `'+'.join`. -/
def joinWithPlus : List String → String
  | [] => ""
  | [s] => s
  | s :: rest => s ++ "+" ++ joinWithPlus rest

/-- A formula string `=ref1+ref2+...`. -/
def sumFormula (refs : List String) : String := "=" ++ joinWithPlus refs

/-- `inputs_sheet['I6'] = company_name; inputs_sheet['I7'] = date`. -/
def headerWrites (d : ParsedExport) : List Write :=
  [(6, 9, .strV d.company_name), (7, 9, .dateV)]

/-- Step 2: the class header labels written into row 30, columns F–I. -/
def classHeaderWrites (d : ParsedExport) : List Write :=
  (class_col_mapping d).map fun nc => (30, nc.2, .strV (cleanClassName nc.1))

/-- The (column, value) pairs of one top-investor template row: name
formula in column D (always referencing column `B` of `Carta Raw`), one
formula per mapped class, a literal 0 for common shares (column P), and
for options (column Q) a summed formula over every options column — or a
literal 0 when the export has no options columns. -/
def blockCells (d : ParsedExport) (rec : StakeholderRecord) : List (Nat × TValue) :=
  (4, .formula ("='Carta Raw'!B" ++ toString rec.carta_row)) ::
    ((class_col_mapping d).map fun nc =>
      (nc.2, .formula ("=" ++ cellRef (classLetter d nc.1) rec.carta_row))) ++
    [(16, .numV 0),
     (17,
       if optionsLetters d = [] then .numV 0
       else .formula (sumFormula
         ((optionsLetters d).map fun col => cellRef col rec.carta_row)))]

/-- The writes of one top-investor block, all landing in template row
`er`. -/
def blockWrites (d : ParsedExport) (er : Nat) (rec : StakeholderRecord) : List Write :=
  (blockCells d rec).map fun cv => (er, cv.1, cv.2)

/-- Step 4: one block of writes per top investor, rows 31, 32, … . -/
def topRowWritesAux (d : ParsedExport) : Nat → List StakeholderRecord → List Write
  | _, [] => []
  | er, rec :: rest => blockWrites d er rec ++ topRowWritesAux d (er + 1) rest

def topRowWrites (d : ParsedExport) : List Write :=
  topRowWritesAux d 31 (topInvestors d)

/-- Clearing of the unused investor rows: for
`i in range(len(top_investors), 9)` the name cell is set to `None` and
columns F–Q to literal 0. -/
def clearCells : List (Nat × TValue) :=
  (4, .cleared) :: (List.range' 6 12).map fun c => (c, TValue.numV 0)

def clearWrites (d : ParsedExport) : List Write :=
  (List.range' (topInvestors d).length (9 - (topInvestors d).length)).flatMap fun i =>
    clearCells.map fun cv => (31 + i, cv.1, cv.2)

/-- The Excel rows of the rolled-up "other" investors. -/
def otherRows (d : ParsedExport) : List Nat := (otherInvestors d).map (·.carta_row)

/-- Step 5: the "Other Investors" rollup row 40.  With at least one other
investor each mapped class gets a formula summing that class's cells over
every other-investor row, common shares a literal 0, and options a
formula summing every options column over every other row (or literal 0
with no options columns).  With no other investors the label is written
and columns F–Q are set to literal 0. -/
def otherCells (d : ParsedExport) : List (Nat × TValue) :=
  if 0 < (otherInvestors d).length then
    (4, .strV "Other Investors") ::
      ((class_col_mapping d).map fun nc =>
        (nc.2, .formula (sumFormula
          ((otherRows d).map fun r => cellRef (classLetter d nc.1) r)))) ++
      [(16, .numV 0),
       (17,
         if optionsLetters d = [] then .numV 0
         else .formula (sumFormula
           ((otherRows d).flatMap fun r =>
             (optionsLetters d).map fun col => cellRef col r)))]
  else
    (4, .strV "Other Investors") ::
      (List.range' 6 12).map fun c => (c, TValue.numV 0)

def otherRowWrites (d : ParsedExport) : List Write :=
  (otherCells d).map fun cv => (40, cv.1, cv.2)

/-- Step 6: the warrants row 41 is zeroed across columns F–O. -/
def warrantsWrites : List Write :=
  (List.range' 6 10).map fun c => (41, c, TValue.numV 0)

/-- Step 7: price formulas, rows 10–13 column K, one per mapped class
that has a discovered unit price. -/
def priceWrites (d : ParsedExport) : List Write :=
  match d.price_row_num with
  | none => []
  | some pr =>
      if d.price_per_unit = [] then []
      else
        (enumFromNat 0 (mappedClasses d)).filterMap fun ic =>
          if (d.price_per_unit.lookup ic.2).isSome then
            some (10 + ic.1, 11, .formula ("=" ++ cellRef (classLetter d ic.2) pr))
          else none

/-- All writes `transform_to_template` performs on the `Inputs` sheet, in
program order. -/
def transform_writes (d : ParsedExport) : List Write :=
  headerWrites d ++ classHeaderWrites d ++ topRowWrites d ++ clearWrites d ++
    otherRowWrites d ++ warrantsWrites ++ priceWrites d

/-- Sum of the coerced values of column `j` over a list of records
(`pd.to_numeric(stakeholders[class], errors='coerce').fillna(0).sum()`). -/
def classTotalOver (recs : List StakeholderRecord) (j : Nat) : ℚ :=
  (recs.map fun r => toNum0 (r.cells.getD j .blank)).sum

/-- The summary record returned to the caller. -/
structure Summary where
  investors_processed : Nat
  top_investors : Nat
  other_investors_count : Nat
  share_classes_mapped : List String
  totals_by_class : List (String × ℚ)
  prices_found : Bool
deriving DecidableEq, Repr

/-- The summary `transform_to_template` returns. -/
def transform_summary (d : ParsedExport) : Summary where
  investors_processed := (sort_values_shares_desc d.stakeholders).length
  top_investors := (topInvestors d).length
  other_investors_count := (otherInvestors d).length
  share_classes_mapped := (class_col_mapping d).map (·.1)
  totals_by_class := (mappedClasses d).map fun n =>
    (n, classTotalOver (sort_values_shares_desc d.stakeholders) (classIdx d n))
  prices_found := !(d.price_per_unit.isEmpty)

/-- The populator's observable behaviour: the writes it performs and the
summary it returns. -/
def transform_to_template (d : ParsedExport) : List Write × Summary :=
  (transform_writes d, transform_summary d)

/-- The value a cell of the `Inputs` sheet holds after the run: the last
write to that coordinate, if any. -/
def writesAt (ws : List Write) (r c : Nat) : List Write :=
  ws.filter fun w => w.1 == r && w.2.1 == c

def finalCell (ws : List Write) (r c : Nat) : Option TValue :=
  ((writesAt ws r c).getLast?).map (·.2.2)

/-! ## Concrete exports used as test inputs

Small raw sheets exercising the parser and populator on explicit data;
they serve as the concrete inputs of the counterexamples and witnesses
below. -/

/-- Two stakeholders with *equal* `total_shares` (a tie), Alice on row 3
and Bob on row 4 of the export. -/
def tieSheet : Sheet :=
  [ [.str "Acme Detailed Capitalization Table"],
    [.str "Name", .str "Class A Units"],
    [.str "Alice", .num 100],
    [.str "Bob", .num 100] ]

/-- A header row located exactly at row index 9 (the last scanned row). -/
def boundarySheet9 : Sheet :=
  [ [.str "Acme Detailed Capitalization Table"], [.str "x"], [.str "x"],
    [.str "x"], [.str "x"], [.str "x"], [.str "x"], [.str "x"], [.str "x"],
    [.str "Name", .str "Class A Units"] ]

/-- No row among the first 10 matches the header heuristic; a `Name` row
exists but only at row index 10, beyond the scan window. -/
def noHeaderSheet : Sheet :=
  [ [.str "x"], [.str "x"], [.str "x"], [.str "x"], [.str "x"], [.str "x"],
    [.str "x"], [.str "x"], [.str "x"], [.str "x"],
    [.str "Name", .str "Class A Units"],
    [.str "Alice", .num 100] ]

/-- A stakeholder row holding a *negative* number of Class A units. -/
def negSheet : Sheet :=
  [ [.str "Acme Detailed Capitalization Table"],
    [.str "Name", .str "Class A Units"],
    [.str "Eve", .num (-5)] ]

/-- An export with a "Price per unit" row: the label sits in column 1 and
the Class A price (2) in the class column. -/
def priceSheet : Sheet :=
  [ [.str "Acme Detailed Capitalization Table"],
    [.str "Name", .str "ID", .str "Class A Units"],
    [.str "Carol", .str "1", .num 10],
    [.blank, .str "Price per unit", .num 2] ]

/-- An export whose `Name` column is column C (index 2) of the raw sheet,
not column B. -/
def nameColSheet : Sheet :=
  [ [.str "Acme Detailed Capitalization Table"],
    [.str "ID", .str "Junk", .str "Name", .str "Class A Units"],
    [.str "1", .str "x", .str "Dora", .num 7] ]

/-- A parsed export with 10 stakeholders (distinct holdings), for the
top-9 / other split. -/
def mkRec10 (k : Nat) : StakeholderRecord :=
  ⟨"inv" ++ toString k, k + 3, [.num ((10 - k : Nat) : ℚ)], ((10 - k : Nat) : ℚ), 0⟩

def bigD : ParsedExport where
  company_name := "Acme"
  stakeholders := (List.range 10).map mkRec10
  share_class_cols := ["Class A Units"]
  share_class_col_indices := [("Class A Units", 0)]
  options_cols := []
  options_col_indices := []
  header_row := 1
  price_per_unit := []
  price_row_num := none

/-! ## General lemmas about the ranking -/

instance : IsTotal StakeholderRecord bySharesLE :=
  ⟨fun a b => le_total a.total_shares b.total_shares⟩

instance : IsTrans StakeholderRecord bySharesLE :=
  ⟨fun _ _ _ h1 h2 => le_trans h1 h2⟩

lemma sort_values_perm (l : List StakeholderRecord) :
    (sort_values_shares_desc l).Perm l :=
  (List.reverse_perm _).trans
    ((List.perm_insertionSort _ l.reverse).trans (List.reverse_perm l))

lemma sort_values_length (l : List StakeholderRecord) :
    (sort_values_shares_desc l).length = l.length :=
  (sort_values_perm l).length_eq

lemma otherInvestors_eq_drop (d : ParsedExport) :
    otherInvestors d = (sort_values_shares_desc d.stakeholders).drop 9 := by
  unfold otherInvestors
  split
  · rfl
  · next h =>
    exact (List.drop_eq_nil_of_le (by omega)).symm

lemma top_append_other_perm (d : ParsedExport) :
    (topInvestors d ++ otherInvestors d).Perm d.stakeholders := by
  rw [otherInvestors_eq_drop]
  unfold topInvestors
  rw [List.take_append_drop]
  exact sort_values_perm d.stakeholders

lemma topInvestors_length_le (d : ParsedExport) : (topInvestors d).length ≤ 9 := by
  unfold topInvestors
  simp

lemma classTotalOver_append (l₁ l₂ : List StakeholderRecord) (j : Nat) :
    classTotalOver (l₁ ++ l₂) j = classTotalOver l₁ j + classTotalOver l₂ j := by
  unfold classTotalOver
  rw [List.map_append, List.sum_append]

lemma classTotalOver_of_perm {l₁ l₂ : List StakeholderRecord} (h : l₁.Perm l₂) (j : Nat) :
    classTotalOver l₁ j = classTotalOver l₂ j :=
  (h.map _).sum_eq

/-- **C2**.  The rows referenced by the top-investor formulas and the rows
referenced by the rollup formulas partition the parsed stakeholders (there
are at most 9 top investors), so for every mapped share class the class
total over the top investors plus the class total over the rollup's rows
equals the class total over all parsed stakeholders. -/
theorem top_rollup_conservation (d : ParsedExport) :
    ((topInvestors d).map (·.carta_row) ++
        (otherInvestors d).map (·.carta_row)).Perm
      (d.stakeholders.map (·.carta_row)) ∧
    (topInvestors d).length ≤ 9 ∧
    ∀ n c, (n, c) ∈ class_col_mapping d →
      classTotalOver (topInvestors d) (classIdx d n) +
          classTotalOver (otherInvestors d) (classIdx d n) =
        classTotalOver d.stakeholders (classIdx d n) := by
  refine ⟨?_, topInvestors_length_le d, ?_⟩
  · rw [← List.map_append]
    exact (top_append_other_perm d).map _
  · intro n c _
    rw [← classTotalOver_append]
    exact classTotalOver_of_perm (top_append_other_perm d) _

/-- **C4**.  With `N` parsed stakeholder rows the summary reports `N`
processed investors; when `N > 9` the top-investor count is exactly 9 and
the other count exactly `N − 9`; when `N ≤ 9` the top count is `N` and
the other count 0. -/
theorem summary_top_other_counts (d : ParsedExport) :
    (transform_to_template d).2.investors_processed = d.stakeholders.length ∧
    (9 < d.stakeholders.length →
      (transform_to_template d).2.top_investors = 9 ∧
      (transform_to_template d).2.other_investors_count =
        d.stakeholders.length - 9) ∧
    (d.stakeholders.length ≤ 9 →
      (transform_to_template d).2.top_investors = d.stakeholders.length ∧
      (transform_to_template d).2.other_investors_count = 0) := by
  have hlen := sort_values_length d.stakeholders
  have htop : (topInvestors d).length = min 9 d.stakeholders.length := by
    unfold topInvestors
    rw [List.length_take, hlen]
  have hoth : (otherInvestors d).length = d.stakeholders.length - 9 := by
    rw [otherInvestors_eq_drop, List.length_drop, hlen]
  refine ⟨?_, fun h => ⟨?_, ?_⟩, fun h => ⟨?_, ?_⟩⟩
  · exact hlen
  · show (topInvestors d).length = 9
    omega
  · show (otherInvestors d).length = d.stakeholders.length - 9
    omega
  · show (topInvestors d).length = d.stakeholders.length
    omega
  · show (otherInvestors d).length = 0
    omega

/-! ## Locating writes on the `Inputs` sheet -/

lemma writesAt_append (A B : List Write) (r c : Nat) :
    writesAt (A ++ B) r c = writesAt A r c ++ writesAt B r c := by
  unfold writesAt
  exact List.filter_append _ _

lemma writesAt_eq_nil {ws : List Write} {r : Nat} (c : Nat)
    (h : ∀ w ∈ ws, w.1 ≠ r) : writesAt ws r c = [] := by
  refine List.filter_eq_nil_iff.mpr fun w hw => ?_
  simp [h w hw]

lemma finalCell_append_right_nil {A B : List Write} {r c : Nat}
    (h : writesAt B r c = []) : finalCell (A ++ B) r c = finalCell A r c := by
  unfold finalCell
  rw [writesAt_append, h, List.append_nil]

lemma finalCell_append_left_nil {A B : List Write} {r c : Nat}
    (h : writesAt A r c = []) : finalCell (A ++ B) r c = finalCell B r c := by
  unfold finalCell
  rw [writesAt_append, h, List.nil_append]

lemma mem_enumFromNat_bound {α : Type} :
    ∀ {l : List α} {k i : Nat} {a : α},
      (i, a) ∈ enumFromNat k l → k ≤ i ∧ i < k + l.length
  | [], _, _, _, h => by simp [enumFromNat] at h
  | x :: xs, k, i, a, h => by
      simp only [enumFromNat, List.mem_cons] at h
      rcases h with h | h
      · cases h
        simp
      · have := mem_enumFromNat_bound h
        simp only [List.length_cons]
        omega

lemma mappedClasses_length_le (d : ParsedExport) : (mappedClasses d).length ≤ 4 := by
  unfold mappedClasses
  exact List.length_take_le 4 _

lemma class_col_mapping_col_bound {d : ParsedExport} {n : String} {c : Nat}
    (h : (n, c) ∈ class_col_mapping d) : 6 ≤ c ∧ c < 10 := by
  unfold class_col_mapping at h
  obtain ⟨ic, hic, heq⟩ := List.mem_map.mp h
  have hb := mem_enumFromNat_bound hic
  have hl := mappedClasses_length_le d
  cases heq
  omega

/-- Every write of one top-investor block lands in template row `er`. -/
lemma blockWrites_row {d : ParsedExport} {er : Nat} {rec : StakeholderRecord}
    {w : Write} (h : w ∈ blockWrites d er rec) : w.1 = er := by
  unfold blockWrites at h
  obtain ⟨cv, _, hw⟩ := List.mem_map.mp h
  rw [← hw]

lemma topRowWritesAux_row {d : ParsedExport} :
    ∀ {l : List StakeholderRecord} {er : Nat} {w : Write},
      w ∈ topRowWritesAux d er l → er ≤ w.1 ∧ w.1 < er + l.length
  | [], _, _, h => by simp [topRowWritesAux] at h
  | rec :: rest, er, w, h => by
      simp only [topRowWritesAux, List.mem_append] at h
      rcases h with h | h
      · rw [blockWrites_row h]
        simp
      · have := topRowWritesAux_row h
        simp only [List.length_cons]
        omega

lemma clearWrites_row {d : ParsedExport} {w : Write} (h : w ∈ clearWrites d) :
    31 + (topInvestors d).length ≤ w.1 ∧ w.1 < 40 := by
  unfold clearWrites at h
  obtain ⟨i, hi, hw⟩ := List.mem_flatMap.mp h
  rw [List.mem_range'_1] at hi
  have hrow : w.1 = 31 + i := by
    obtain ⟨cv, _, hc⟩ := List.mem_map.mp hw
    rw [← hc]
  omega

lemma otherRowWrites_row {d : ParsedExport} {w : Write}
    (h : w ∈ otherRowWrites d) : w.1 = 40 := by
  unfold otherRowWrites at h
  obtain ⟨cv, _, hc⟩ := List.mem_map.mp h
  rw [← hc]

lemma warrantsWrites_row {w : Write} (h : w ∈ warrantsWrites) : w.1 = 41 := by
  unfold warrantsWrites at h
  obtain ⟨c, _, hc⟩ := List.mem_map.mp h
  rw [← hc]

lemma priceWrites_row {d : ParsedExport} {w : Write} (h : w ∈ priceWrites d) :
    10 ≤ w.1 ∧ w.1 < 14 := by
  unfold priceWrites at h
  split at h
  · simp at h
  · split at h
    · simp at h
    · obtain ⟨ic, hic, hw⟩ := List.mem_filterMap.mp h
      have hb := mem_enumFromNat_bound hic
      have hl := mappedClasses_length_le d
      split at hw
      · cases Option.some.inj hw
        simp only
        omega
      · exact absurd hw (by simp)

lemma headerWrites_row {d : ParsedExport} {w : Write}
    (h : w ∈ headerWrites d) : w.1 = 6 ∨ w.1 = 7 := by
  simp only [headerWrites, List.mem_cons, List.not_mem_nil, or_false] at h
  rcases h with rfl | rfl
  · exact Or.inl rfl
  · exact Or.inr rfl

lemma classHeaderWrites_row {d : ParsedExport} {w : Write}
    (h : w ∈ classHeaderWrites d) : w.1 = 30 := by
  obtain ⟨nc, _, hw⟩ := List.mem_map.mp h
  rw [← hw]

/-- Writes produced by pinning a whole cell list to one row, filtered at
that row: only the column filter remains. -/
lemma writesAt_mapRow (cells : List (Nat × TValue)) (row c : Nat) :
    writesAt (cells.map fun cv => (row, cv.1, cv.2)) row c =
      (cells.filter fun cv => cv.1 == c).map fun cv => (row, cv.1, cv.2) := by
  unfold writesAt
  rw [List.filter_map]
  congr 1
  apply List.filter_congr
  intro cv _
  simp [Function.comp]

lemma finalCell_mapRow (cells : List (Nat × TValue)) (row c : Nat) :
    finalCell (cells.map fun cv => (row, cv.1, cv.2)) row c =
      ((cells.filter fun cv => cv.1 == c).getLast?).map (·.2) := by
  unfold finalCell
  rw [writesAt_mapRow, List.getLast?_map, Option.map_map]
  rfl

lemma finalCell_topRowWritesAux {d : ParsedExport} (c : Nat) :
    ∀ (l : List StakeholderRecord) (er i : Nat), i < l.length →
      finalCell (topRowWritesAux d er l) (er + i) c =
        finalCell (blockWrites d (er + i) (l.getD i default)) (er + i) c := by
  intro l
  induction l with
  | nil =>
      intro er i hi
      simp at hi
  | cons rec rest ih =>
      intro er i hi
      cases i with
      | zero =>
          have hnil : writesAt (topRowWritesAux d (er + 1) rest) (er + 0) c = [] :=
            writesAt_eq_nil c fun w hw => by
              have := (topRowWritesAux_row hw).1
              omega
          rw [show topRowWritesAux d er (rec :: rest) =
                blockWrites d er rec ++ topRowWritesAux d (er + 1) rest from rfl]
          rw [show er + 0 = er from rfl] at hnil ⊢
          rw [finalCell_append_right_nil hnil]
          rw [List.getD_cons_zero]
      | succ i' =>
          have hnil : writesAt (blockWrites d er rec) (er + (i' + 1)) c = [] :=
            writesAt_eq_nil c fun w hw => by
              have := blockWrites_row hw
              omega
          rw [show topRowWritesAux d er (rec :: rest) =
                blockWrites d er rec ++ topRowWritesAux d (er + 1) rest from rfl]
          rw [finalCell_append_left_nil hnil]
          have harr : er + (i' + 1) = (er + 1) + i' := by omega
          rw [harr, List.getD_cons_succ]
          exact ih (er + 1) i' (by simpa using hi)

/-- On a top-investor row, the final cell value is decided by that row's
own block of writes. -/
lemma finalCell_transform_at_top (d : ParsedExport) (i c : Nat)
    (hi : i < (topInvestors d).length) :
    finalCell (transform_writes d) (31 + i) c =
      finalCell (blockWrites d (31 + i) ((topInvestors d).getD i default)) (31 + i) c := by
  have h9 : i < 9 := lt_of_lt_of_le hi (topInvestors_length_le d)
  have hH : writesAt (headerWrites d) (31 + i) c = [] :=
    writesAt_eq_nil c fun w hw => by rcases headerWrites_row hw with h | h <;> omega
  have hCH : writesAt (classHeaderWrites d) (31 + i) c = [] :=
    writesAt_eq_nil c fun w hw => by have := classHeaderWrites_row hw; omega
  have hClear : writesAt (clearWrites d) (31 + i) c = [] :=
    writesAt_eq_nil c fun w hw => by have := clearWrites_row hw; omega
  have hOther : writesAt (otherRowWrites d) (31 + i) c = [] :=
    writesAt_eq_nil c fun w hw => by have := otherRowWrites_row hw; omega
  have hWar : writesAt warrantsWrites (31 + i) c = [] :=
    writesAt_eq_nil c fun w hw => by have := warrantsWrites_row hw; omega
  have hPrice : writesAt (priceWrites d) (31 + i) c = [] :=
    writesAt_eq_nil c fun w hw => by have := priceWrites_row hw; omega
  have hHC : writesAt (headerWrites d ++ classHeaderWrites d) (31 + i) c = [] := by
    rw [writesAt_append, hH, hCH]
    rfl
  unfold transform_writes
  rw [finalCell_append_right_nil hPrice, finalCell_append_right_nil hWar,
    finalCell_append_right_nil hOther, finalCell_append_right_nil hClear,
    finalCell_append_left_nil hHC]
  unfold topRowWrites
  exact finalCell_topRowWritesAux c (topInvestors d) 31 i hi

/-- On row 40, the final cell value is decided by the rollup writes. -/
lemma finalCell_transform_row40 (d : ParsedExport) (c : Nat) :
    finalCell (transform_writes d) 40 c = finalCell (otherRowWrites d) 40 c := by
  have hH : writesAt (headerWrites d) 40 c = [] :=
    writesAt_eq_nil c fun w hw => by rcases headerWrites_row hw with h | h <;> omega
  have hCH : writesAt (classHeaderWrites d) 40 c = [] :=
    writesAt_eq_nil c fun w hw => by have := classHeaderWrites_row hw; omega
  have hTop : writesAt (topRowWrites d) 40 c = [] := by
    refine writesAt_eq_nil c fun w hw => ?_
    have hb := topRowWritesAux_row hw
    have := topInvestors_length_le d
    omega
  have hClear : writesAt (clearWrites d) 40 c = [] :=
    writesAt_eq_nil c fun w hw => by have := clearWrites_row hw; omega
  have hWar : writesAt warrantsWrites 40 c = [] :=
    writesAt_eq_nil c fun w hw => by have := warrantsWrites_row hw; omega
  have hPrice : writesAt (priceWrites d) 40 c = [] :=
    writesAt_eq_nil c fun w hw => by have := priceWrites_row hw; omega
  have hLeft : writesAt
      (headerWrites d ++ classHeaderWrites d ++ topRowWrites d ++ clearWrites d)
      40 c = [] := by
    rw [writesAt_append, writesAt_append, writesAt_append, hH, hCH, hTop, hClear]
    rfl
  unfold transform_writes
  rw [finalCell_append_right_nil hPrice, finalCell_append_right_nil hWar,
    finalCell_append_left_nil hLeft]

/-- The class-column writes of a block never land in columns 4, 16, 17. -/
lemma filter_classCols_eq_nil (d : ParsedExport) (c : Nat)
    (hc : c < 6 ∨ 10 ≤ c) (f : String × Nat → Nat × TValue)
    (hf : ∀ nc, (f nc).1 = nc.2) :
    ((class_col_mapping d).map f).filter (fun cv => cv.1 == c) = [] := by
  refine List.filter_eq_nil_iff.mpr fun cv hcv => ?_
  obtain ⟨nc, hnc, rfl⟩ := List.mem_map.mp hcv
  have hb := class_col_mapping_col_bound hnc
  rw [hf nc]
  simp only [beq_iff_eq]
  omega

lemma blockCells_filter4 (d : ParsedExport) (rec : StakeholderRecord) :
    (blockCells d rec).filter (fun cv => cv.1 == 4) =
      [(4, .formula ("='Carta Raw'!B" ++ toString rec.carta_row))] := by
  unfold blockCells
  rw [List.filter_append, List.filter_cons,
    filter_classCols_eq_nil d 4 (by omega) _ (fun nc => rfl)]
  simp

lemma blockCells_filter17 (d : ParsedExport) (rec : StakeholderRecord) :
    (blockCells d rec).filter (fun cv => cv.1 == 17) =
      [(17,
        if optionsLetters d = [] then TValue.numV 0
        else .formula (sumFormula
          ((optionsLetters d).map fun col => cellRef col rec.carta_row)))] := by
  unfold blockCells
  rw [List.filter_append, List.filter_cons,
    filter_classCols_eq_nil d 17 (by omega) _ (fun nc => rfl)]
  simp

/-- **C10**.  The name cell of every written top-investor row holds the
formula `='Carta Raw'!B<row>`: the populator always references column `B`
of the auxiliary sheet as the name column, independently of which column
of the export actually held the names. -/
theorem name_formula_always_column_B (d : ParsedExport) (i : Nat)
    (hi : i < (topInvestors d).length) :
    finalCell (transform_writes d) (31 + i) 4 =
      some (.formula
        ("='Carta Raw'!B" ++ toString (((topInvestors d).getD i default).carta_row))) := by
  rw [finalCell_transform_at_top d i 4 hi]
  unfold blockWrites
  rw [finalCell_mapRow, blockCells_filter4]
  rfl

/-- Deconstructing a successful parse. -/
lemma parse_ok_elim {raw : Sheet} {d : ParsedExport}
    (hp : parse_carta_export raw = .ok d) :
    ∃ h, findHeaderRow raw = some h ∧ d = parseOk raw h := by
  unfold parse_carta_export at hp
  split at hp
  · exact absurd hp (by simp)
  · next h heq =>
      split at hp
      · exact absurd hp (by simp)
      · exact ⟨h, heq, (Except.ok.inj hp).symm⟩

lemma otherCells_filter17 (d : ParsedExport) (h : optionsLetters d = []) :
    (otherCells d).filter (fun cv => cv.1 == 17) = [(17, TValue.numV 0)] := by
  unfold otherCells
  by_cases hlen : 0 < (otherInvestors d).length
  · rw [if_pos hlen, List.filter_append, List.filter_cons,
      filter_classCols_eq_nil d 17 (by omega) _ (fun nc => rfl), h]
    simp
  · rw [if_neg hlen]
    rfl

/-- **C8**.  When the parsed export has at most 9 stakeholder rows (so
there are no "other" investors), every rollup-row cell in columns F–Q —
in particular the share-class, common-shares and options cells — is
written as the literal value 0, never as a formula. -/
theorem rollup_literal_zero_when_no_other (d : ParsedExport)
    (hN : d.stakeholders.length ≤ 9) (c : Nat) (h6 : 6 ≤ c) (h18 : c < 18) :
    finalCell (transform_writes d) 40 c = some (.numV 0) := by
  have hother : (otherInvestors d).length = 0 := by
    rw [otherInvestors_eq_drop, List.length_drop, sort_values_length]
    omega
  rw [finalCell_transform_row40]
  unfold otherRowWrites
  rw [finalCell_mapRow]
  unfold otherCells
  rw [if_neg (by omega)]
  interval_cases c <;> rfl

/-- **C9**.  When the parsed export has no options columns, the options
cell (column Q) of every written top-investor row and of the rollup row
holds the literal value 0, not a formula. -/
theorem options_literal_zero_without_option_columns (raw : Sheet)
    (d : ParsedExport) (hp : parse_carta_export raw = .ok d)
    (hopt : d.options_cols = []) :
    (∀ i, i < (topInvestors d).length →
      finalCell (transform_writes d) (31 + i) 17 = some (.numV 0)) ∧
    finalCell (transform_writes d) 40 17 = some (.numV 0) := by
  obtain ⟨h, _, rfl⟩ := parse_ok_elim hp
  have hidx : optionIdxs raw h = [] := by
    have : (optionIdxs raw h).map (fun j => (dfColumns raw h).getD j "") = [] := hopt
    exact List.map_eq_nil_iff.mp this
  have hoL : optionsLetters (parseOk raw h) = [] := by
    unfold optionsLetters parseOk
    simp [hidx]
  constructor
  · intro i hi
    rw [finalCell_transform_at_top _ i 17 hi]
    unfold blockWrites
    rw [finalCell_mapRow, blockCells_filter17, hoL]
    simp
  · rw [finalCell_transform_row40]
    unfold otherRowWrites
    rw [finalCell_mapRow, otherCells_filter17 _ hoL]
    rfl

/-! ## Parser-level claims -/

lemma find?_range'_spec {p : Nat → Bool} :
    ∀ (n s i : Nat), (List.range' s n).find? p = some i →
      s ≤ i ∧ i < s + n ∧ p i = true ∧ ∀ j, s ≤ j → j < i → p j = false := by
  intro n
  induction n with
  | zero =>
      intro s i h
      simp [List.range'] at h
  | succ n ih =>
      intro s i h
      rw [show List.range' s (n + 1) = s :: List.range' (s + 1) n from rfl] at h
      cases hp : p s with
      | true =>
          rw [List.find?_cons_of_pos _ hp] at h
          cases Option.some.inj h
          exact ⟨le_refl s, by omega, hp, fun j h1 h2 => absurd (lt_of_le_of_lt h1 h2) (lt_irrefl s)⟩
      | false =>
          rw [List.find?_cons_of_neg _ (by simp [hp])] at h
          obtain ⟨h1, h2, h3, h4⟩ := ih (s + 1) i h
          refine ⟨by omega, by omega, h3, fun j hj1 hj2 => ?_⟩
          rcases Nat.eq_or_lt_of_le hj1 with rfl | hj
          · exact hp
          · exact h4 j hj hj2

/-- **C3**.  Header discovery scans only the first 10 rows and returns the
topmost matching row (case-folded cell values containing the literal
`"name"`, or concatenated text containing `"stakeholder"`); if no row
among the first 10 matches, parsing fails with the header error rather
than defaulting; and a header located exactly at row index 9 still
succeeds (witnessed by `boundarySheet9`). -/
theorem header_discovery_first10 (raw : Sheet) :
    (∀ i, findHeaderRow raw = some i →
      i < 10 ∧ i < raw.length ∧ headerRowMatch (padRow raw i) = true ∧
        ∀ j, j < i → headerRowMatch (padRow raw j) = false) ∧
    ((∀ j, j < min 10 raw.length → headerRowMatch (padRow raw j) = false) →
      parse_carta_export raw = .error "Could not find header row in Carta export") ∧
    (findHeaderRow boundarySheet9 = some 9 ∧
      parse_carta_export boundarySheet9 = .ok (parseOk boundarySheet9 9)) := by
  refine ⟨?_, ?_, by decide, by rfl⟩
  · intro i h
    unfold findHeaderRow at h
    rw [List.range_eq_range'] at h
    obtain ⟨_, h2, h3, h4⟩ := find?_range'_spec _ 0 i h
    exact ⟨by omega, by omega, h3, fun j hj => h4 j (Nat.zero_le j) hj⟩
  · intro hnone
    have hfind : findHeaderRow raw = none := by
      unfold findHeaderRow
      refine List.find?_eq_none.mpr fun j hj => ?_
      rw [List.mem_range] at hj
      simp [hnone j hj]
    unfold parse_carta_export
    rw [hfind]

lemma mem_stakeholdersList_iff (raw : Sheet) (h p : Nat) :
    mkRecord raw h p ∈ stakeholdersList raw h ↔ p ∈ stakeholderIdxs raw h := by
  unfold stakeholdersList
  rw [List.mem_map]
  constructor
  · rintro ⟨p', hp', heq⟩
    have hcr : p' + h + 2 = p + h + 2 := congrArg StakeholderRecord.carta_row heq
    have hpp : p' = p := by omega
    rwa [hpp] at hp'
  · intro hmem
    exact ⟨p, hmem, rfl⟩

/-- **C5**.  A data row is retained as a stakeholder row iff its
(case-folded) name field is non-empty, is not the missing-value text
`"nan"`, and contains none of the footer keywords as a substring; in
particular a row whose name field case-folds to
`"total units outstanding"` (e.g. the footer `"Total Units Outstanding"`)
never appears in the stakeholders sequence. -/
theorem stakeholder_row_filter_iff (raw : Sheet) (h p : Nat)
    (hp : p < dataRowCount raw h) :
    (mkRecord raw h p ∈ stakeholdersList raw h ↔
      (rowName raw h p ≠ "" ∧ rowName raw h p ≠ "nan" ∧
        ∀ pat ∈ summary_patterns, strContains (rowName raw h p) pat = false)) ∧
    (rowName raw h p = "total units outstanding" →
      mkRecord raw h p ∉ stakeholdersList raw h) := by
  have hmain : mkRecord raw h p ∈ stakeholdersList raw h ↔
      (rowName raw h p ≠ "" ∧ rowName raw h p ≠ "nan" ∧
        ∀ pat ∈ summary_patterns, strContains (rowName raw h p) pat = false) := by
    rw [mem_stakeholdersList_iff]
    unfold stakeholderIdxs
    rw [List.mem_filter, List.mem_range]
    unfold is_stakeholder_row
    simp only [Bool.and_eq_true, Bool.not_eq_true', List.any_eq_false, beq_eq_false_iff_ne,
      bne_iff_ne, ne_eq, Bool.not_eq_true]
    constructor
    · rintro ⟨_, ⟨h1, h2⟩, h3⟩
      exact ⟨h1, h3, h2⟩
    · rintro ⟨h1, h2, h3⟩
      exact ⟨hp, ⟨h1, h3⟩, h2⟩
  refine ⟨hmain, fun hname hmem => ?_⟩
  have h3 := (hmain.mp hmem).2.2 "total" (by simp [summary_patterns])
  rw [hname] at h3
  exact absurd h3 (by decide)

lemma padRow_getD (raw : Sheet) (i j : Nat) (hj : j < ncols raw) :
    (padRow raw i).getD j .blank = cellAt raw i j := by
  unfold padRow
  rw [List.getD_eq_getElem?_getD, List.getElem?_map, List.getElem?_range hj]
  rfl

/-- **C6** (amended).  For every parsed stakeholder record, `total_shares`
(resp. `total_options`) is the sum of the numerically coerced share-class
(resp. options) cells of its row, non-numeric and blank cells
contributing 0; the totals are ≥ 0 *provided* every such cell coerces to
a nonnegative value.  (The unconditional claim is false: the code never
clamps, so a negative numeric cell makes the total negative — see the
counterexample.) -/
theorem totals_nonneg_when_cells_nonneg (raw : Sheet) (d : ParsedExport)
    (hp : parse_carta_export raw = .ok d) (r : StakeholderRecord)
    (hr : r ∈ d.stakeholders)
    (hsh : ∀ n j, (n, j) ∈ d.share_class_col_indices →
      0 ≤ toNum0 (r.cells.getD j .blank))
    (hop : ∀ n j, (n, j) ∈ d.options_col_indices →
      0 ≤ toNum0 (r.cells.getD j .blank)) :
    0 ≤ r.total_shares ∧ 0 ≤ r.total_options := by
  obtain ⟨h, _, rfl⟩ := parse_ok_elim hp
  obtain ⟨p, hpmem, rfl⟩ := List.mem_map.mp hr
  have hcells : ∀ j, j < ncols raw →
      (mkRecord raw h p).cells.getD j .blank = cellAt raw (h + 1 + p) j := by
    intro j hj
    exact padRow_getD raw (h + 1 + p) j hj
  constructor
  · refine List.sum_nonneg fun x hx => ?_
    obtain ⟨j, hj, rfl⟩ := List.mem_map.mp hx
    have hjlt : j < ncols raw := by
      have := (List.mem_filter.mp hj).1
      exact List.mem_range.mp this
    have := hsh ((dfColumns raw h).getD j "") j
      (List.mem_map.mpr ⟨j, hj, rfl⟩)
    rwa [hcells j hjlt] at this
  · refine List.sum_nonneg fun x hx => ?_
    obtain ⟨j, hj, rfl⟩ := List.mem_map.mp hx
    have hjlt : j < ncols raw := by
      have := (List.mem_filter.mp hj).1
      exact List.mem_range.mp this
    have := hop ((dfColumns raw h).getD j "") j
      (List.mem_map.mpr ⟨j, hj, rfl⟩)
    rwa [hcells j hjlt] at this

/-- **C7**.  Every value stored in the parsed `unit_prices` mapping is
strictly positive — a share class receives an entry only when its cell in
the discovered price row coerces to a number greater than 0, and
non-positive or unparsable prices are omitted rather than stored as 0;
moreover, when any entry exists a price row was found. -/
theorem unit_prices_positive (raw : Sheet) (d : ParsedExport)
    (hp : parse_carta_export raw = .ok d) :
    (∀ n q, (n, q) ∈ d.price_per_unit → 0 < q) ∧
    (d.price_per_unit ≠ [] → d.price_row_num.isSome = true) := by
  obtain ⟨h, _, rfl⟩ := parse_ok_elim hp
  constructor
  · intro n q hmem
    have hmem' : (n, q) ∈ priceEntries raw h := hmem
    unfold priceEntries at hmem'
    cases hfind : findPriceRow raw with
    | none =>
        rw [hfind] at hmem'
        exact absurd hmem' (by simp)
    | some idx =>
        rw [hfind] at hmem'
        obtain ⟨j, _, heq⟩ := List.mem_filterMap.mp hmem'
        split at heq
        · split at heq
          · split at heq
            · next hpos =>
                have hpair := Option.some.inj heq
                have : q = _ := (congrArg Prod.snd hpair).symm
                rw [this]
                exact hpos
            · exact absurd heq (by simp)
          · exact absurd heq (by simp)
        · exact absurd heq (by simp)
  · intro hne
    have hne' : priceEntries raw h ≠ [] := hne
    unfold priceEntries at hne'
    cases hfind : findPriceRow raw with
    | none =>
        rw [hfind] at hne'
        exact absurd rfl hne'
    | some idx =>
        show ((findPriceRow raw).map (· + 1)).isSome = true
        rw [hfind]
        rfl

/-! ## Counterexamples and concrete witnesses

The Batteries `Rat` operations are `@[irreducible]` for elaboration
performance; the kernel ignores reducibility, and the concrete
evaluations below need the elaborator to unfold them too. -/

section ConcreteRuns

attribute [local semireducible] Rat.add Rat.mul Rat.sub Rat.inv Rat.ofScientific

theorem top_rollup_conservation_witness :
    classTotalOver (topInvestors (parseOk tieSheet 1))
        (classIdx (parseOk tieSheet 1) "Class A Units") +
      classTotalOver (otherInvestors (parseOk tieSheet 1))
        (classIdx (parseOk tieSheet 1) "Class A Units") =
    classTotalOver (parseOk tieSheet 1).stakeholders
      (classIdx (parseOk tieSheet 1) "Class A Units") :=
  (top_rollup_conservation (parseOk tieSheet 1)).2.2 "Class A Units" 6 (by decide)

theorem header_discovery_first10_witness :
    parse_carta_export noHeaderSheet =
      .error "Could not find header row in Carta export" :=
  (header_discovery_first10 noHeaderSheet).2.1 (by decide)

theorem summary_top_other_counts_witness :
    (transform_to_template bigD).2.top_investors = 9 ∧
    (transform_to_template bigD).2.other_investors_count = 1 :=
  (summary_top_other_counts bigD).2.1 (by decide)

theorem stakeholder_row_filter_iff_witness :
    mkRecord tieSheet 1 0 ∈ stakeholdersList tieSheet 1 :=
  ((stakeholder_row_filter_iff tieSheet 1 0 (by decide)).1).mpr (by decide)

/-- **C6** (counterexample).  Parsing `negSheet` yields a stakeholder with
`total_shares = -5 < 0`: numeric coercion does not clamp negative cells,
so `total_shares ≥ 0` is not an invariant. -/
theorem total_shares_negative_counterexample :
    parse_carta_export negSheet = .ok (parseOk negSheet 1) ∧
    (parseOk negSheet 1).stakeholders.map (·.total_shares) = [-5] ∧
    ¬ (0 : ℚ) ≤ -5 := by
  refine ⟨rfl, by decide, by decide⟩

theorem totals_nonneg_when_cells_nonneg_witness :
    0 ≤ (mkRecord tieSheet 1 0).total_shares ∧
    0 ≤ (mkRecord tieSheet 1 0).total_options :=
  totals_nonneg_when_cells_nonneg tieSheet (parseOk tieSheet 1) rfl
    (mkRecord tieSheet 1 0) (by decide)
    (by
      intro n j hmem
      have : j = 1 := by
        have h1 : (n, j) ∈ [("Class A Units", 1)] := hmem
        simp at h1
        exact h1.2
      rw [this]
      decide)
    (by
      intro n j hmem
      have h0 : (parseOk tieSheet 1).options_col_indices = ([] : List (String × Nat)) := by
        decide
      rw [h0] at hmem
      cases hmem)

theorem unit_prices_positive_witness :
    ("Class A Units", (2 : ℚ)) ∈ (parseOk priceSheet 1).price_per_unit ∧
    (0 : ℚ) < 2 :=
  ⟨by decide,
   (unit_prices_positive priceSheet (parseOk priceSheet 1) rfl).1
     "Class A Units" 2 (by decide)⟩

theorem rollup_literal_zero_when_no_other_witness :
    finalCell (transform_writes (parseOk tieSheet 1)) 40 17 = some (.numV 0) :=
  rollup_literal_zero_when_no_other (parseOk tieSheet 1) (by decide) 17
    (by decide) (by decide)

theorem options_literal_zero_without_option_columns_witness :
    finalCell (transform_writes (parseOk tieSheet 1)) (31 + 0) 17 =
      some (.numV 0) :=
  (options_literal_zero_without_option_columns tieSheet (parseOk tieSheet 1)
    rfl (by decide)).1 0 (by decide)

theorem name_formula_always_column_B_witness :
    finalCell (transform_writes (parseOk nameColSheet 1)) (31 + 0) 4 =
      some (.formula "='Carta Raw'!B3") :=
  name_formula_always_column_B (parseOk nameColSheet 1) 0 (by decide)

end ConcreteRuns

end Carta
